import Mathlib

/-!
Verification of the Hansel attribution pipeline (Genebio/Data_Engineering_challenge).

This file is a shallow embedding, in Lean 4, of the pipeline's core logic:

* `src/pipeline/cj_builder.py`   — customer-journey construction (`build_journeys`);
* `src/pipeline/api_client.py`   — batching and submission (`process_journeys`),
  response handling (`send_journeys_to_api`), weight normalization
  (`validate_ihc_results`), persistence (`write_ihc_to_db`);
* `src/pipeline/pipeline.py`     — stage gating (`run_pipeline`);
* `src/run_pipeline.py` together with `CustomerJourneyBuilder.save_to_csv` —
  the CSV intermediate artifact (write with `to_csv`, read with `read_csv`).

Modelling conventions:
* Timestamps are abstract integers.  The Python code concatenates date/time
  strings and converts them with `pd.to_datetime`; only the order of
  timestamps matters to the logic modelled here, so `occurred_at` is an `Int`.
  (The SQL layer that produces the conversion and session frames is the
  external "Touchpoint Store" collaborator and is not part of the core.)
* Attribution weights (`ihc`) are rationals.  The Python floats only undergo
  sums, one division, and tolerance comparisons against 1e-4 here.
* Pandas dataframes become lists of structures; boolean-mask filtering
  preserves list order exactly as it preserves row order in pandas.
* Python exceptions that escape a function are modelled with `Except`;
  exceptions caught inside a function (the `try`/`except` in
  `send_journeys_to_api`) make the model of that function total.
-/

/-- A row of the `conversions` table as queried in `build_journeys`
(`src/pipeline/cj_builder.py` lines 36-59): id, identity, conversion time. -/
structure Conversion where
  conv_id : String
  user_id : String
  timestamp : Int
deriving DecidableEq

/-- A row of the `session_sources` table as queried in `build_journeys`
(`src/pipeline/cj_builder.py` lines 62-75). -/
structure Session where
  session_id : String
  user_id : String
  timestamp : Int
  channel_name : String
  holder_engagement : Int
  closer_engagement : Int
  impression_interaction : Int
deriving DecidableEq

/-- A row of the customer-journeys dataframe assembled in `build_journeys`
(`src/pipeline/cj_builder.py` lines 92-109): the selected and reordered
columns, with `channel_name` renamed to `channel_label` and the constant
`conversion` flag column. -/
structure JourneyRow where
  conversion_id : String
  session_id : String
  timestamp : Int
  channel_label : String
  holder_engagement : Int
  closer_engagement : Int
  conversion : Int
  impression_interaction : Int
deriving DecidableEq

/-- The session-selection predicate of `build_journeys`
(`src/pipeline/cj_builder.py` lines 87-90): same `user_id` as the conversion
and `timestamp <= conv_timestamp`. -/
def qualifies (c : Conversion) (s : Session) : Bool :=
  decide (s.user_id = c.user_id) && decide (s.timestamp ≤ c.timestamp)

/-- One journey row produced for conversion `c` from session `s`
(`src/pipeline/cj_builder.py` lines 92-106): `conversion_id` is added,
`channel_name` becomes `channel_label`, and the `conversion` flag is the
constant `0` assigned by `user_sessions['conversion'] = 0`. -/
def mkRow (c : Conversion) (s : Session) : JourneyRow :=
  { conversion_id := c.conv_id
    session_id := s.session_id
    timestamp := s.timestamp
    channel_label := s.channel_name
    holder_engagement := s.holder_engagement
    closer_engagement := s.closer_engagement
    conversion := 0
    impression_interaction := s.impression_interaction }

/-- The journey dataframe slice built for a single conversion: the sessions
are mask-filtered (which keeps their input order; there is no sort) and then
mapped to journey rows (`src/pipeline/cj_builder.py` lines 87-106). -/
def journeyFor (c : Conversion) (sessions : List Session) : List JourneyRow :=
  (sessions.filter (fun s => qualifies c s)).map (fun s => mkRow c s)

/-- `CustomerJourneyBuilder.build_journeys` (`src/pipeline/cj_builder.py`
lines 77-120): for each conversion in order, append its journey slice when
the filtered session set is non-empty.  (Appending nothing for an empty
slice is literally the `if not user_sessions.empty` guard.) -/
def build_journeys (convs : List Conversion) (sessions : List Session) :
    List JourneyRow :=
  convs.flatMap (fun c =>
    if (journeyFor c sessions).isEmpty then [] else journeyFor c sessions)

/-- First-occurrence de-duplication with an accumulator of already seen keys;
`pdUnique` below models `pandas.Series.unique` (order of first occurrence),
used for `journeys_df['conversion_id'].unique()` in `process_journeys`
(`src/pipeline/api_client.py` line 169), and also the insertion-ordered keys
of the grouping dict in `validate_ihc_results` (lines 82-87). -/
def pdUniqueAux {α : Type} [DecidableEq α] (seen : List α) : List α → List α
  | [] => []
  | a :: l =>
      if a ∈ seen then pdUniqueAux seen l
      else a :: pdUniqueAux (a :: seen) l

/-- Distinct values of a list in order of first occurrence
(`pandas.Series.unique`). -/
def pdUnique {α : Type} [DecidableEq α] (l : List α) : List α :=
  pdUniqueAux [] l

theorem mem_pdUniqueAux {α : Type} [DecidableEq α] (l : List α) :
    ∀ (seen : List α) (x : α),
      x ∈ pdUniqueAux seen l ↔ x ∈ l ∧ x ∉ seen := by
  induction l with
  | nil => intro seen x; simp [pdUniqueAux]
  | cons a l ih =>
      intro seen x
      by_cases ha : a ∈ seen
      · simp only [pdUniqueAux, if_pos ha, ih, List.mem_cons]
        constructor
        · rintro ⟨hx, hns⟩; exact ⟨Or.inr hx, hns⟩
        · rintro ⟨hx | hx, hns⟩
          · exact absurd (hx ▸ ha) hns
          · exact ⟨hx, hns⟩
      · simp only [pdUniqueAux, if_neg ha, List.mem_cons, ih]
        by_cases hxa : x = a
        · subst hxa; tauto
        · tauto

theorem mem_pdUnique {α : Type} [DecidableEq α] {l : List α} {x : α} :
    x ∈ pdUnique l ↔ x ∈ l := by
  simp [pdUnique, mem_pdUniqueAux]

theorem nodup_pdUniqueAux {α : Type} [DecidableEq α] (l : List α) :
    ∀ seen : List α, (pdUniqueAux seen l).Nodup := by
  induction l with
  | nil => intro seen; simp [pdUniqueAux]
  | cons a l ih =>
      intro seen
      by_cases ha : a ∈ seen
      · simpa [pdUniqueAux, if_pos ha] using ih seen
      · simp only [pdUniqueAux, if_neg ha, List.nodup_cons]
        refine ⟨fun hmem => ?_, ih (a :: seen)⟩
        have := (mem_pdUniqueAux l (a :: seen) a).mp hmem
        exact this.2 (List.mem_cons_self a seen)

theorem nodup_pdUnique {α : Type} [DecidableEq α] (l : List α) :
    (pdUnique l).Nodup :=
  nodup_pdUniqueAux l []

/-- Fuel-indexed chunking: `chunkList n l` below cuts `l` into consecutive
slices of at most `n` elements, modelling the loop
`for i in range(0, total_conversions, max_journeys_per_request)` with the
slice `unique_conversions[i:i+max_journeys_per_request]`
(`src/pipeline/api_client.py` lines 180-182).  The fuel is only a structural
termination device; `l.length` fuel always suffices. -/
def chunkListAux {α : Type} (n : Nat) : Nat → List α → List (List α)
  | 0, _ => []
  | _ + 1, [] => []
  | fuel + 1, a :: l => (a :: l).take n :: chunkListAux n fuel ((a :: l).drop n)

/-- Consecutive chunks of at most `n` elements (the conversion-id slices of
`process_journeys`). -/
def chunkList {α : Type} (n : Nat) (l : List α) : List (List α) :=
  chunkListAux n l.length l

theorem chunkListAux_flatten {α : Type} (n : Nat) (hn : 0 < n) :
    ∀ (fuel : Nat) (l : List α), l.length ≤ fuel →
      (chunkListAux n fuel l).flatten = l := by
  intro fuel
  induction fuel with
  | zero =>
      intro l hl
      have : l = [] := List.length_eq_zero.mp (Nat.le_zero.mp hl)
      subst this; rfl
  | succ fuel ih =>
      intro l hl
      cases l with
      | nil => rfl
      | cons a l =>
          have hdrop : ((a :: l).drop n).length ≤ fuel := by
            rw [List.length_drop]
            simp only [List.length_cons] at hl ⊢
            omega
          simp only [chunkListAux, List.flatten_cons, ih _ hdrop,
            List.take_append_drop]

theorem chunkList_flatten {α : Type} {n : Nat} (hn : 0 < n) (l : List α) :
    (chunkList n l).flatten = l :=
  chunkListAux_flatten n hn l.length l le_rfl

theorem chunkListAux_mem {α : Type} (n : Nat) (hn : 0 < n) :
    ∀ (fuel : Nat) (l c : List α), c ∈ chunkListAux n fuel l →
      c.Sublist l ∧ c.length ≤ n ∧ c ≠ [] := by
  intro fuel
  induction fuel with
  | zero => intro l c hc; simp [chunkListAux] at hc
  | succ fuel ih =>
      intro l c hc
      cases l with
      | nil => simp [chunkListAux] at hc
      | cons a l =>
          simp only [chunkListAux, List.mem_cons] at hc
          rcases hc with rfl | hc
          · refine ⟨List.take_sublist _ _, ?_, ?_⟩
            · rw [List.length_take]; exact Nat.min_le_left _ _
            · have : 0 < ((a :: l).take n).length := by
                rw [List.length_take]
                simp [Nat.lt_min, hn]
              intro h
              rw [h] at this
              simp at this
          · obtain ⟨hsub, hlen, hne⟩ := ih _ _ hc
            exact ⟨hsub.trans (List.drop_sublist _ _), hlen, hne⟩

theorem chunkList_mem {α : Type} {n : Nat} (hn : 0 < n) {l c : List α}
    (hc : c ∈ chunkList n l) : c.Sublist l ∧ c.length ≤ n ∧ c ≠ [] :=
  chunkListAux_mem n hn l.length l c hc

/-- Outcome of one submission decision inside `process_journeys`
(`src/pipeline/api_client.py` lines 180-244): either a batch of journey rows
handed to `send_journeys_to_api`, or a conversion reported as skipped by
`print(f"Skipping conversion {conv_id} - too many sessions ...")`. -/
inductive BatchEvent where
  | submitted (batch : List JourneyRow)
  | skipped (convId : String)
deriving DecidableEq

/-- All journey rows of one conversion:
`journeys_df[journeys_df['conversion_id'] == conv_id]`
(`src/pipeline/api_client.py` line 194). -/
def convRowsOf (rows : List JourneyRow) (cid : String) : List JourneyRow :=
  rows.filter (fun r => decide (r.conversion_id = cid))

/-- Handling of one conversion-id chunk in `process_journeys`
(`src/pipeline/api_client.py` lines 186-244): take all rows of the chunk's
conversions; if they exceed `max_sessions_per_request`, fall back to one
event per conversion (skipping a conversion whose own row count exceeds the
limit), otherwise submit the whole chunk as one batch. -/
def processChunk (rows : List JourneyRow) (maxS : Nat) (chunk : List String) :
    List BatchEvent :=
  let chunkRows := rows.filter (fun r => decide (r.conversion_id ∈ chunk))
  if maxS < chunkRows.length then
    chunk.map (fun cid =>
      if maxS < (convRowsOf rows cid).length then BatchEvent.skipped cid
      else BatchEvent.submitted (convRowsOf rows cid))
  else [BatchEvent.submitted chunkRows]

/-- The sequence of submission decisions taken by
`IHCApiClient.process_journeys` (`src/pipeline/api_client.py` lines 153-252):
unique conversion ids in first-occurrence order, sliced into chunks of
`max_journeys_per_request`, each chunk handled by `processChunk`.  (An empty
dataframe returns early at line 164-166, which here yields the empty event
list.) -/
def process_journeys (maxJ maxS : Nat) (rows : List JourneyRow) :
    List BatchEvent :=
  (chunkList maxJ (pdUnique (rows.map (fun r => r.conversion_id)))).flatMap
    (processChunk rows maxS)

/-- Whether an event accounts for conversion `cid`: a submitted batch
containing one of its rows, or its skip report. -/
def coversConv (cid : String) : BatchEvent → Bool
  | BatchEvent.skipped c => decide (c = cid)
  | BatchEvent.submitted b => b.any (fun r => decide (r.conversion_id = cid))

theorem nodup_length_le_of_subset {α : Type} [DecidableEq α]
    {l₁ l₂ : List α} (h₁ : l₁.Nodup) (hsub : l₁ ⊆ l₂) :
    l₁.length ≤ l₂.length := by
  calc l₁.length = l₁.toFinset.card := (List.toFinset_card_of_nodup h₁).symm
    _ ≤ l₂.toFinset.card := Finset.card_le_card (fun x hx => by
        rw [List.mem_toFinset] at hx ⊢; exact hsub hx)
    _ ≤ l₂.length := List.toFinset_card_le l₂

theorem pdUnique_length_le_one {α : Type} [DecidableEq α] {l : List α} {a : α}
    (h : ∀ x ∈ l, x = a) : (pdUnique l).length ≤ 1 := by
  cases hp : pdUnique l with
  | nil => simp
  | cons b t =>
      cases t with
      | nil => simp
      | cons c t' =>
          exfalso
          have hb : b ∈ pdUnique l := by rw [hp]; exact List.mem_cons_self _ _
          have hc : c ∈ pdUnique l := by rw [hp]; simp
          have hnd := nodup_pdUnique l
          rw [hp, List.nodup_cons] at hnd
          have hba : b = a := h b (mem_pdUnique.mp hb)
          have hca : c = a := h c (mem_pdUnique.mp hc)
          exact hnd.1 (by rw [hba, ← hca]; exact List.mem_cons_self _ _)

theorem countP_eq_one_of_nodup_mem {α : Type} [DecidableEq α]
    {l : List α} {a : α} (hnd : l.Nodup) (ha : a ∈ l) :
    l.countP (fun x => decide (x = a)) = 1 := by
  induction l with
  | nil => simp at ha
  | cons b t ih =>
      rw [List.nodup_cons] at hnd
      rw [List.countP_cons]
      rcases List.mem_cons.mp ha with rfl | hat
      · have hz : t.countP (fun x => decide (x = a)) = 0 :=
          List.countP_eq_zero.mpr (fun x hx => by
            simp only [decide_eq_true_eq]
            rintro rfl; exact hnd.1 hx)
        simp [hz]
      · have hbne : ¬(b = a) := fun hba => hnd.1 (hba ▸ hat)
        simp [hbne, ih hnd.2 hat]

/-- Each conversion id with at least one row is accounted for exactly
`count` times by the events of a single chunk: once per occurrence in the
chunk (fallback path emits one event per chunk id; normal path submits one
batch containing exactly the chunk's conversions' rows). -/
theorem processChunk_countP (rows : List JourneyRow) (maxS : Nat)
    (chunk : List String) (cid : String) (hnd : chunk.Nodup)
    (hall : ∀ c ∈ chunk, ∃ r ∈ rows, r.conversion_id = c)
    (hcid : ∃ r ∈ rows, r.conversion_id = cid) :
    (processChunk rows maxS chunk).countP (coversConv cid)
      = chunk.countP (fun c => decide (c = cid)) := by
  unfold processChunk
  by_cases hbig :
      maxS < (rows.filter (fun r => decide (r.conversion_id ∈ chunk))).length
  · simp only [if_pos hbig, List.countP_map]
    apply List.countP_congr
    intro c hc
    simp only [Function.comp]
    by_cases hskip : maxS < (convRowsOf rows c).length
    · simp only [if_pos hskip, coversConv]
    · simp only [if_neg hskip, coversConv]
      by_cases hceq : c = cid
      · subst hceq
        obtain ⟨r, hr, hrid⟩ := hall c hc
        have h1 : (convRowsOf rows c).any
            (fun r => decide (r.conversion_id = c)) = true := by
          simp only [List.any_eq_true]
          exact ⟨r, List.mem_filter.mpr ⟨hr, by simp [hrid]⟩, by simp [hrid]⟩
        simp [h1]
      · simp only [decide_eq_true_eq, List.any_eq_true]
        constructor
        · rintro ⟨r, hrmem, hrcid⟩
          have := (List.mem_filter.mp hrmem).2
          simp only [decide_eq_true_eq] at this hrcid
          exact absurd (this ▸ hrcid) hceq
        · intro h; exact absurd h hceq
  · simp only [if_neg hbig]
    rw [List.countP_cons, List.countP_nil]
    by_cases hmem : cid ∈ chunk
    · have hcov : coversConv cid
          (BatchEvent.submitted
            (rows.filter (fun r => decide (r.conversion_id ∈ chunk)))) = true := by
        obtain ⟨r, hr, hrid⟩ := hcid
        simp only [coversConv, List.any_eq_true]
        exact ⟨r, List.mem_filter.mpr ⟨hr, by simp [hrid, hmem]⟩, by simp [hrid]⟩
      rw [hcov, countP_eq_one_of_nodup_mem hnd hmem]
      simp
    · have hcov : coversConv cid
          (BatchEvent.submitted
            (rows.filter (fun r => decide (r.conversion_id ∈ chunk)))) = false := by
        simp only [coversConv, List.any_eq_true, eq_iff_iff, iff_false, not_exists,
          not_and]
        rw [Bool.eq_false_iff]
        simp only [ne_eq, List.any_eq_true, not_exists, not_and]
        intro r hrmem hrcid
        have hin := (List.mem_filter.mp hrmem).2
        simp only [decide_eq_true_eq] at hin hrcid
        exact hmem (hrcid ▸ hin)
      rw [hcov]
      have hz : chunk.countP (fun c => decide (c = cid)) = 0 :=
        List.countP_eq_zero.mpr (fun c hc => by
          simp only [decide_eq_true_eq]
          rintro rfl; exact hmem hc)
      simp [hz]

/-- Every conversion id present in the input is covered by exactly one event
across the whole run of `process_journeys`: the chunks partition the unique
ids, and within its chunk each id receives exactly one submitted batch or
one skip report. -/
theorem process_journeys_countP {maxJ maxS : Nat} {rows : List JourneyRow}
    (hJ : 0 < maxJ) {cid : String}
    (hcid : cid ∈ pdUnique (rows.map (fun r => r.conversion_id))) :
    (process_journeys maxJ maxS rows).countP (coversConv cid) = 1 := by
  have hrow : ∀ c ∈ pdUnique (rows.map (fun r => r.conversion_id)),
      ∃ r ∈ rows, r.conversion_id = c := by
    intro c hc
    obtain ⟨r, hr, hrc⟩ := List.mem_map.mp (mem_pdUnique.mp hc)
    exact ⟨r, hr, hrc⟩
  rw [process_journeys, List.flatMap_def, List.countP_flatten, List.map_map]
  have hcongr : ∀ ch ∈ chunkList maxJ (pdUnique (rows.map (fun r => r.conversion_id))),
      (List.countP (coversConv cid) ∘ processChunk rows maxS) ch
        = ch.countP (fun c => decide (c = cid)) := by
    intro ch hch
    obtain ⟨hsub, _, _⟩ := chunkList_mem hJ hch
    exact processChunk_countP rows maxS ch cid
      (hsub.nodup (nodup_pdUnique _))
      (fun c hc => hrow c (hsub.subset hc))
      (hrow cid hcid)
  rw [List.map_congr_left hcongr]
  have hsum := List.countP_flatten (fun c => decide (c = cid))
      (chunkList maxJ (pdUnique (rows.map (fun r => r.conversion_id))))
  rw [chunkList_flatten hJ] at hsum
  rw [← hsum]
  exact countP_eq_one_of_nodup_mem (nodup_pdUnique _) hcid

/-- Every batch submitted by `process_journeys` respects both API ceilings,
draws its rows from the input, and carries the complete row set of every
conversion it contains. -/
theorem process_journeys_submitted {maxJ maxS : Nat} {rows : List JourneyRow}
    (hJ : 0 < maxJ) {b : List JourneyRow}
    (hb : BatchEvent.submitted b ∈ process_journeys maxJ maxS rows) :
    (pdUnique (b.map (fun r => r.conversion_id))).length ≤ maxJ
    ∧ b.length ≤ maxS
    ∧ (∀ r ∈ b, r ∈ rows)
    ∧ ∀ cid, b.any (fun r => decide (r.conversion_id = cid)) = true →
        b.filter (fun r => decide (r.conversion_id = cid)) = convRowsOf rows cid := by
  rw [process_journeys] at hb
  obtain ⟨chunk, hch, hbev⟩ := List.mem_flatMap.mp hb
  obtain ⟨hsub, hchlen, hchne⟩ := chunkList_mem hJ hch
  simp only [processChunk] at hbev
  by_cases hbig :
      maxS < (rows.filter (fun r => decide (r.conversion_id ∈ chunk))).length
  · rw [if_pos hbig] at hbev
    obtain ⟨c, hc, heq⟩ := List.mem_map.mp hbev
    by_cases hskip : maxS < (convRowsOf rows c).length
    · rw [if_pos hskip] at heq
      exact absurd heq (by simp)
    · rw [if_neg hskip] at heq
      rw [BatchEvent.submitted.injEq] at heq
      subst heq
      refine ⟨?_, Nat.le_of_not_lt hskip,
        fun r hr => (List.mem_filter.mp hr).1, ?_⟩
      · have hall : ∀ x ∈ (convRowsOf rows c).map (fun r => r.conversion_id),
            x = c := by
          intro x hx
          obtain ⟨r, hr, hrx⟩ := List.mem_map.mp hx
          have h2 := (List.mem_filter.mp hr).2
          simp only [decide_eq_true_eq] at h2
          exact hrx ▸ h2
        exact le_trans (pdUnique_length_le_one hall) hJ
      · intro cid hany
        obtain ⟨r, hrmem, hrcid⟩ := List.any_eq_true.mp hany
        have h2 := (List.mem_filter.mp hrmem).2
        simp only [decide_eq_true_eq] at h2 hrcid
        have hcc : cid = c := hrcid ▸ h2
        subst hcc
        exact List.filter_eq_self.mpr (fun r hr => (List.mem_filter.mp hr).2)
  · rw [if_neg hbig] at hbev
    rw [List.mem_singleton, BatchEvent.submitted.injEq] at hbev
    subst hbev
    refine ⟨?_, Nat.le_of_not_lt hbig,
      fun r hr => (List.mem_filter.mp hr).1, ?_⟩
    · have hsubc :
          pdUnique ((rows.filter (fun r => decide (r.conversion_id ∈ chunk))).map
            (fun r => r.conversion_id)) ⊆ chunk := by
        intro x hx
        obtain ⟨r, hr, hrx⟩ := List.mem_map.mp (mem_pdUnique.mp hx)
        have h2 := (List.mem_filter.mp hr).2
        simp only [decide_eq_true_eq] at h2
        exact hrx ▸ h2
      exact le_trans
        (nodup_length_le_of_subset (nodup_pdUnique _) hsubc) hchlen
  
    · intro cid hany
      obtain ⟨r, hrmem, hrcid⟩ := List.any_eq_true.mp hany
      have hin := (List.mem_filter.mp hrmem).2
      simp only [decide_eq_true_eq] at hin hrcid
      have hcidchunk : cid ∈ chunk := hrcid ▸ hin
      rw [List.filter_filter]
      unfold convRowsOf
      apply List.filter_congr
      intro r hr
      by_cases hid : r.conversion_id = cid
      · simp [hid, hcidchunk]
      · simp [hid]

/-- A skip report is emitted only for a conversion whose own row count
already exceeds `max_sessions_per_request`
(`src/pipeline/api_client.py` lines 197-199). -/
theorem process_journeys_skipped {maxJ maxS : Nat} {rows : List JourneyRow}
    {cid : String}
    (h : BatchEvent.skipped cid ∈ process_journeys maxJ maxS rows) :
    maxS < (convRowsOf rows cid).length := by
  rw [process_journeys] at h
  obtain ⟨chunk, hch, hev⟩ := List.mem_flatMap.mp h
  simp only [processChunk] at hev
  by_cases hbig :
      maxS < (rows.filter (fun r => decide (r.conversion_id ∈ chunk))).length
  · rw [if_pos hbig] at hev
    obtain ⟨c, hc, heq⟩ := List.mem_map.mp hev
    by_cases hskip : maxS < (convRowsOf rows c).length
    · rw [if_pos hskip] at heq
      rw [BatchEvent.skipped.injEq] at heq
      exact heq ▸ hskip
    · rw [if_neg hskip] at heq
      exact absurd heq (by simp)
  · rw [if_neg hbig] at hev
    simp at hev

/-- One element of the API's `value` array
(`src/pipeline/api_client.py` lines 55-61 and 121-128): attribution weight
`ihc` for one (conversion, session) pair.  Weights are modelled as
rationals. -/
structure IhcResult where
  conversion_id : String
  session_id : String
  ihc : ℚ
deriving DecidableEq

/-- `sum(session['ihc'] for session in sessions)`
(`src/pipeline/api_client.py` line 92). -/
def sumIhc (g : List IhcResult) : ℚ := (g.map (fun r => r.ihc)).sum

/-- The normalization tolerance `0.0001` of
`src/pipeline/api_client.py` lines 95 and 135. -/
def eps : ℚ := 1 / 10000

/-- Grouping of results by `conversion_id` with a Python dict
(`src/pipeline/api_client.py` lines 82-87): keys in first-occurrence order,
each group keeping the input order of its rows. -/
def groupByConv (results : List IhcResult) : List (List IhcResult) :=
  (pdUnique (results.map (fun r => r.conversion_id))).map
    (fun cid => results.filter (fun r => decide (r.conversion_id = cid)))

/-- The per-conversion body of `validate_ihc_results`
(`src/pipeline/api_client.py` lines 90-105): when the group's sum is outside
the tolerance, every row is divided by the sum.  Python raises an uncaught
`ZeroDivisionError` on `session['ihc'] / ihc_sum` when the sum is zero;
that exception is the `Except.error` value here. -/
def normalizeGroup (g : List IhcResult) : Except String (List IhcResult) :=
  if eps < |sumIhc g - 1| then
    if sumIhc g = 0 then Except.error "ZeroDivisionError"
    else Except.ok (g.map (fun r => { r with ihc := r.ihc / sumIhc g }))
  else Except.ok g

/-- The group loop of `validate_ihc_results` with its
`validated_results.extend(sessions)` accumulation
(`src/pipeline/api_client.py` lines 90-105); an exception in any group
escapes the whole function. -/
def normalizeGroups : List (List IhcResult) → Except String (List IhcResult)
  | [] => Except.ok []
  | g :: gs =>
      match normalizeGroup g with
      | Except.error e => Except.error e
      | Except.ok g' =>
          match normalizeGroups gs with
          | Except.error e => Except.error e
          | Except.ok rest => Except.ok (g' ++ rest)

/-- `IHCApiClient.validate_ihc_results` (`src/pipeline/api_client.py`
lines 67-107): early return `[]` on empty input, otherwise group by
conversion and normalize each group. -/
def validate_ihc_results (results : List IhcResult) :
    Except String (List IhcResult) :=
  if results.isEmpty then Except.ok []
  else normalizeGroups (groupByConv results)

/-- The successful result of normalizing one group: rescaled by `1/sum`
when outside tolerance, otherwise passed through unchanged. -/
def rescaleGroup (g : List IhcResult) : List IhcResult :=
  if eps < |sumIhc g - 1| then
    g.map (fun r => { r with ihc := r.ihc / sumIhc g })
  else g

/-- A row of the `attribution_customer_journey` table
(`src/pipeline/api_client.py` lines 124-128 and 146). -/
structure WeightRow where
  conv_id : String
  session_id : String
  ihc : ℚ
deriving DecidableEq

/-- Field extraction of `write_ihc_to_db`
(`src/pipeline/api_client.py` lines 122-128). -/
def toWeightRow (r : IhcResult) : WeightRow :=
  { conv_id := r.conversion_id, session_id := r.session_id, ihc := r.ihc }

/-- `IHCApiClient.write_ihc_to_db` (`src/pipeline/api_client.py`
lines 109-151) acting on the persisted table: empty input returns 0 rows
written before touching the table (line 118-119); otherwise the function
runs `DELETE FROM attribution_customer_journey` and inserts exactly the
given rows, so the previous table contents are discarded wholesale on
every non-empty write. -/
def write_ihc_to_db (results : List IhcResult) (table : List WeightRow) :
    List WeightRow × Nat :=
  if results.isEmpty then (table, 0)
  else (results.map toWeightRow, results.length)

/-- The parsed JSON body of an API response
(`src/pipeline/api_client.py` lines 55-61): `statusCode` and the `value`
array (`results.get('value', [])` defaults to the empty list).  The
`partialFailureErrors` entry is only printed and is omitted here. -/
structure ApiPayload where
  statusCode : Option Int
  value : Option (List IhcResult)
deriving DecidableEq

/-- The transport-level outcome of `requests.post`
(`src/pipeline/api_client.py` lines 44-55): an HTTP status code, and the
JSON body when `response.json()` parses (`none` models a malformed payload
whose parse raises). -/
structure ApiResponse where
  status_code : Int
  json : Option ApiPayload
deriving DecidableEq

/-- `IHCApiClient.send_journeys_to_api` (`src/pipeline/api_client.py`
lines 32-65) as a function of the transport outcome (`none` models a raised
transport exception, caught by the `except` clause and turned into `None`).
Non-200 status returns `None` (lines 50-53); a malformed body returns `None`
through the same `except` clause; otherwise the `value` array (default `[]`)
is returned. -/
def send_journeys_to_api (response : Option ApiResponse) :
    Option (List IhcResult) :=
  match response with
  | none => none
  | some resp =>
      if resp.status_code ≠ 200 then none
      else
        match resp.json with
        | none => none
        | some payload => some (payload.value.getD [])

/-- The submission loop body of `process_journeys`
(`src/pipeline/api_client.py` lines 206-216 and 231-241), folded over the
batch events: a batch whose submission returns `None` or `[]` (both falsy
under `if results:`) leaves the database state untouched; otherwise the
results are validated (possibly raising, which aborts the run) and written,
each write replacing the table and adding to `total_records`. -/
def runBatches (api : List JourneyRow → Option (List IhcResult)) :
    List BatchEvent → List WeightRow × Nat → Except String (List WeightRow × Nat)
  | [], st => Except.ok st
  | BatchEvent.skipped _ :: evs, st => runBatches api evs st
  | BatchEvent.submitted b :: evs, st =>
      match api b with
      | none => runBatches api evs st
      | some [] => runBatches api evs st
      | some (r :: rs) =>
          match validate_ihc_results (r :: rs) with
          | Except.error e => Except.error e
          | Except.ok validated =>
              runBatches api evs
                ((write_ihc_to_db validated st.1).1,
                  st.2 + (write_ihc_to_db validated st.1).2)

/-- `IHCApiClient.process_journeys` (`src/pipeline/api_client.py`
lines 153-252) with its database effects: early return on an empty journey
set (lines 164-166), otherwise the batch events are processed in order
against the persisted table, returning the final table and
`total_records`. -/
def process_journeys_run (api : List JourneyRow → Option (List IhcResult))
    (maxJ maxS : Nat) (rows : List JourneyRow) (table0 : List WeightRow) :
    Except String (List WeightRow × Nat) :=
  if rows.isEmpty then Except.ok (table0, 0)
  else runBatches api (process_journeys maxJ maxS rows) (table0, 0)

/-- The table contents a single event leaves behind when it performs a
non-empty database write (`none` when the event writes nothing: a skip, a
failed or empty submission, or an empty validated result). -/
def batchWrite (api : List JourneyRow → Option (List IhcResult)) :
    BatchEvent → Option (List WeightRow)
  | BatchEvent.skipped _ => none
  | BatchEvent.submitted b =>
      match api b with
      | none => none
      | some [] => none
      | some (r :: rs) =>
          match validate_ihc_results (r :: rs) with
          | Except.error _ => none
          | Except.ok validated =>
              if validated.isEmpty then none
              else some (validated.map toWeightRow)

/-- The observable outcome of `AttributionPipeline.run_pipeline`
(`src/pipeline/pipeline.py` lines 73-105): which stages were attempted, the
console messages, and the value returned to the caller (the Python function
returns `None` on every path, modelled as `Unit`). -/
structure PipelineRun where
  stages : List String
  log : List String
  retval : Unit
deriving DecidableEq

/-- Console message at `src/pipeline/pipeline.py` line 92. -/
def msgNoJourneys : String := "No journeys were found. Pipeline cannot continue."

/-- Console message at `src/pipeline/pipeline.py` line 99. -/
def msgNoRecords : String := "No IHC records were written. Pipeline cannot continue."

/-- `AttributionPipeline.run_pipeline` (`src/pipeline/pipeline.py`
lines 73-105) as a function of the journey-building result and of the record
count the submission step would return: the submission stage runs only past
the `journeys_df.empty` gate and the report stage only past the
`records == 0` gate; each blocked gate prints its message and returns. -/
def run_pipeline (journeys : List JourneyRow) (records : Nat) : PipelineRun :=
  if journeys.isEmpty then
    { stages := ["BUILD_JOURNEYS"], log := [msgNoJourneys], retval := () }
  else if records = 0 then
    { stages := ["BUILD_JOURNEYS", "SUBMIT_AND_WRITE"],
      log := [msgNoRecords], retval := () }
  else
    { stages := ["BUILD_JOURNEYS", "SUBMIT_AND_WRITE", "REPORT"],
      log := ["===== Pipeline Completed Successfully ====="], retval := () }

theorem build_journeys_eq_flatMap (convs : List Conversion)
    (sessions : List Session) :
    build_journeys convs sessions
      = convs.flatMap (fun c => journeyFor c sessions) := by
  unfold build_journeys
  have h : ∀ c : Conversion,
      (if (journeyFor c sessions).isEmpty then [] else journeyFor c sessions)
        = journeyFor c sessions := by
    intro c
    by_cases hc : (journeyFor c sessions).isEmpty
    · rw [if_pos hc, List.isEmpty_iff.mp hc]
    · rw [if_neg hc]
  simp only [h]

theorem mem_build_journeys {convs : List Conversion} {sessions : List Session}
    {row : JourneyRow} :
    row ∈ build_journeys convs sessions
      ↔ ∃ c ∈ convs, row ∈ journeyFor c sessions := by
  rw [build_journeys_eq_flatMap]
  exact List.mem_flatMap

theorem mem_journeyFor {c : Conversion} {sessions : List Session}
    {row : JourneyRow} :
    row ∈ journeyFor c sessions
      ↔ ∃ s ∈ sessions, qualifies c s = true ∧ row = mkRow c s := by
  unfold journeyFor
  constructor
  · intro h
    obtain ⟨s, hs, heq⟩ := List.mem_map.mp h
    have := List.mem_filter.mp hs
    exact ⟨s, this.1, this.2, heq.symm⟩
  · rintro ⟨s, hs, hq, rfl⟩
    exact List.mem_map.mpr ⟨s, List.mem_filter.mpr ⟨hs, hq⟩, rfl⟩

theorem process_journeys_submitted_subset {maxJ maxS : Nat}
    {rows : List JourneyRow} {b : List JourneyRow}
    (hb : BatchEvent.submitted b ∈ process_journeys maxJ maxS rows) :
    ∀ r ∈ b, r ∈ rows := by
  rw [process_journeys] at hb
  obtain ⟨chunk, hch, hbev⟩ := List.mem_flatMap.mp hb
  simp only [processChunk] at hbev
  by_cases hbig :
      maxS < (rows.filter (fun r => decide (r.conversion_id ∈ chunk))).length
  · rw [if_pos hbig] at hbev
    obtain ⟨c, hc, heq⟩ := List.mem_map.mp hbev
    by_cases hskip : maxS < (convRowsOf rows c).length
    · rw [if_pos hskip] at heq
      exact absurd heq (by simp)
    · rw [if_neg hskip] at heq
      rw [BatchEvent.submitted.injEq] at heq
      subst heq
      exact fun r hr => (List.mem_filter.mp hr).1
  · rw [if_neg hbig] at hbev
    rw [List.mem_singleton, BatchEvent.submitted.injEq] at hbev
    subst hbev
    exact fun r hr => (List.mem_filter.mp hr).1

/-- C6: every touchpoint row that `build_journeys` places in a conversion's
journey comes from a session of the same identity whose timestamp is at
most the conversion's timestamp; a conversion whose filtered session set is
empty contributes no rows (and `build_journeys` is exactly the
concatenation of the per-conversion journeys). -/
theorem c6_journey_membership (convs : List Conversion)
    (sessions : List Session) :
    (∀ row ∈ build_journeys convs sessions,
        ∃ c ∈ convs, ∃ s ∈ sessions,
          s.user_id = c.user_id ∧ s.timestamp ≤ c.timestamp ∧ row = mkRow c s)
    ∧ (∀ c : Conversion,
        sessions.filter (fun s => qualifies c s) = [] →
          journeyFor c sessions = [])
    ∧ build_journeys convs sessions
        = convs.flatMap (fun c => journeyFor c sessions) := by
  refine ⟨?_, ?_, build_journeys_eq_flatMap convs sessions⟩
  · intro row hrow
    obtain ⟨c, hc, hrj⟩ := mem_build_journeys.mp hrow
    obtain ⟨s, hs, hq, heq⟩ := mem_journeyFor.mp hrj
    unfold qualifies at hq
    simp only [Bool.and_eq_true, decide_eq_true_eq] at hq
    exact ⟨c, hc, s, hs, hq.1, hq.2, heq⟩
  · intro c hf
    unfold journeyFor
    rw [hf]
    rfl

def exC6conv : Conversion := { conv_id := "C1", user_id := "U1", timestamp := 10 }

def exC6session : Session :=
  { session_id := "S1", user_id := "U1", timestamp := 5, channel_name := "ch",
    holder_engagement := 1, closer_engagement := 0, impression_interaction := 1 }

theorem c6_witness :
    ∃ c ∈ [exC6conv], ∃ s ∈ [exC6session],
      s.user_id = c.user_id ∧ s.timestamp ≤ c.timestamp ∧
        mkRow exC6conv exC6session = mkRow c s :=
  (c6_journey_membership [exC6conv] [exC6session]).1
    (mkRow exC6conv exC6session) (by decide)

def exC3conv : Conversion := { conv_id := "C1", user_id := "U1", timestamp := 2 }

def exC3sessions : List Session :=
  [{ session_id := "S2", user_id := "U1", timestamp := 2, channel_name := "ch",
     holder_engagement := 0, closer_engagement := 0, impression_interaction := 0 },
   { session_id := "S1", user_id := "U1", timestamp := 1, channel_name := "ch",
     holder_engagement := 0, closer_engagement := 0, impression_interaction := 0 }]

/-- C3 counterexample: `build_journeys` performs no sort, so when the
session records arrive with the timestamp-2 session before the timestamp-1
session, the emitted journey for the conversion at time 2 lists timestamps
`[2, 1]`, which is not ascending — the claim's "sorted by occurred_at
ascending, for any input order" fails. -/
theorem c3_counterexample :
    (build_journeys [exC3conv] exC3sessions).map (fun r => r.timestamp)
        = [2, 1]
    ∧ ¬ List.Pairwise (fun a b : Int => a ≤ b)
        ((build_journeys [exC3conv] exC3sessions).map (fun r => r.timestamp)) := by
  have hmap : (build_journeys [exC3conv] exC3sessions).map
      (fun r => r.timestamp) = [2, 1] := by decide
  refine ⟨hmap, ?_⟩
  rw [hmap]
  intro h
  have := (List.pairwise_cons.mp h).1 1 (by simp)
  omega

def scenarioAConv : Conversion := { conv_id := "C1", user_id := "U1", timestamp := 2 }

def scenarioASessions : List Session :=
  [{ session_id := "S1", user_id := "U1", timestamp := 1, channel_name := "ch",
     holder_engagement := 0, closer_engagement := 0, impression_interaction := 0 },
   { session_id := "S2", user_id := "U1", timestamp := 2, channel_name := "ch",
     holder_engagement := 0, closer_engagement := 0, impression_interaction := 0 },
   { session_id := "S3", user_id := "U1", timestamp := 3, channel_name := "ch",
     holder_engagement := 0, closer_engagement := 0, impression_interaction := 0 }]

/-- C3 amended: each journey lists the conversion's qualifying touchpoints
in the order the session records appear in the input (no reordering), so it
is sorted ascending by `occurred_at` whenever the input session list is;
in particular, with sessions supplied in chronological order `t1 < t2 < t3`
and a conversion at `t2`, the emitted journey is exactly `[t1, t2]`. -/
theorem c3_amended (convs : List Conversion) (sessions : List Session)
    (hs : List.Pairwise (fun a b : Session => a.timestamp ≤ b.timestamp)
      sessions) :
    (∀ c ∈ convs,
        List.Pairwise (fun a b : JourneyRow => a.timestamp ≤ b.timestamp)
          (journeyFor c sessions))
    ∧ (∀ c : Conversion,
        journeyFor c sessions
          = (sessions.filter (fun s => qualifies c s)).map (fun s => mkRow c s))
    ∧ (build_journeys [scenarioAConv] scenarioASessions).map
        (fun r => (r.session_id, r.timestamp)) = [("S1", 1), ("S2", 2)] := by
  refine ⟨?_, fun c => rfl, by decide⟩
  intro c hc
  unfold journeyFor
  rw [List.pairwise_map]
  have hfs : List.Pairwise (fun a b : Session => a.timestamp ≤ b.timestamp)
      (sessions.filter (fun s => qualifies c s)) :=
    List.Pairwise.sublist (List.filter_sublist sessions) hs
  exact hfs.imp (fun h => h)

/-- C10: every journey row emitted by `build_journeys` carries
`conversion = 0` (the builder assigns the constant column
`user_sessions['conversion'] = 0` and never marks the conversion event),
and consequently so does every row of every batch that `process_journeys`
submits to the scoring service. -/
theorem c10_conversion_flag_zero (convs : List Conversion)
    (sessions : List Session) :
    (∀ row ∈ build_journeys convs sessions, row.conversion = 0)
    ∧ ∀ maxJ maxS : Nat, ∀ b : List JourneyRow,
        BatchEvent.submitted b ∈
          process_journeys maxJ maxS (build_journeys convs sessions) →
        ∀ row ∈ b, row.conversion = 0 := by
  have hall : ∀ row ∈ build_journeys convs sessions, row.conversion = 0 := by
    intro row hrow
    obtain ⟨c, _, hrj⟩ := mem_build_journeys.mp hrow
    obtain ⟨s, _, _, heq⟩ := mem_journeyFor.mp hrj
    rw [heq]
    rfl
  refine ⟨hall, ?_⟩
  intro maxJ maxS b hb row hrow
  exact hall row (process_journeys_submitted_subset hb row hrow)

theorem c10_witness :
    ∀ row ∈ build_journeys [exC6conv] [exC6session], row.conversion = 0 :=
  (c10_conversion_flag_zero [exC6conv] [exC6session]).1

theorem c3_witness :
    (build_journeys [scenarioAConv] scenarioASessions).map
        (fun r => (r.session_id, r.timestamp)) = [("S1", 1), ("S2", 2)] :=
  (c3_amended [] scenarioASessions (by decide)).2.2

/-- C4: for positive API limits, every batch submitted by
`process_journeys` contains at most `max_journeys_per_request` distinct
conversions and at most `max_sessions_per_request` rows; every conversion
present in the input is covered by exactly one event (a submitted batch
containing it, or a skip report); a submitted batch carries the complete
row set of each of its conversions; and a skip report occurs only for a
conversion whose own row count exceeds the session ceiling. -/
theorem c4_partitioning_safety (maxJ maxS : Nat) (rows : List JourneyRow)
    (hJ : 0 < maxJ) (_hS : 0 < maxS) :
    (∀ b : List JourneyRow,
        BatchEvent.submitted b ∈ process_journeys maxJ maxS rows →
        (pdUnique (b.map (fun r => r.conversion_id))).length ≤ maxJ
          ∧ b.length ≤ maxS)
    ∧ (∀ cid : String, cid ∈ pdUnique (rows.map (fun r => r.conversion_id)) →
        (process_journeys maxJ maxS rows).countP (coversConv cid) = 1)
    ∧ (∀ b : List JourneyRow, ∀ cid : String,
        BatchEvent.submitted b ∈ process_journeys maxJ maxS rows →
        b.any (fun r => decide (r.conversion_id = cid)) = true →
        b.filter (fun r => decide (r.conversion_id = cid)) = convRowsOf rows cid)
    ∧ (∀ cid : String,
        BatchEvent.skipped cid ∈ process_journeys maxJ maxS rows →
        maxS < (convRowsOf rows cid).length) := by
  refine ⟨?_, fun cid hcid => process_journeys_countP hJ hcid, ?_,
    fun cid h => process_journeys_skipped h⟩
  · intro b hb
    obtain ⟨h1, h2, _, _⟩ := process_journeys_submitted hJ hb
    exact ⟨h1, h2⟩
  · intro b cid hb hany
    exact (process_journeys_submitted hJ hb).2.2.2 cid hany

def exC4rows : List JourneyRow :=
  [{ conversion_id := "J1", session_id := "s1", timestamp := 1,
     channel_label := "ch", holder_engagement := 0, closer_engagement := 0,
     conversion := 0, impression_interaction := 0 },
   { conversion_id := "J1", session_id := "s2", timestamp := 2,
     channel_label := "ch", holder_engagement := 0, closer_engagement := 0,
     conversion := 0, impression_interaction := 0 },
   { conversion_id := "J2", session_id := "s3", timestamp := 1,
     channel_label := "ch", holder_engagement := 0, closer_engagement := 0,
     conversion := 0, impression_interaction := 0 },
   { conversion_id := "J2", session_id := "s4", timestamp := 2,
     channel_label := "ch", holder_engagement := 0, closer_engagement := 0,
     conversion := 0, impression_interaction := 0 },
   { conversion_id := "J3", session_id := "s5", timestamp := 1,
     channel_label := "ch", holder_engagement := 0, closer_engagement := 0,
     conversion := 0, impression_interaction := 0 }]

theorem c4_witness :
    (0 : Nat) < 2 ∧ (0 : Nat) < 3 ∧
      (process_journeys 2 3 exC4rows).countP (coversConv "J1") = 1 :=
  ⟨by decide, by decide,
    (c4_partitioning_safety 2 3 exC4rows (by decide) (by decide)).2.1 "J1"
      (by decide)⟩

theorem list_sum_map_div (l : List ℚ) (c : ℚ) :
    (l.map (fun x => x / c)).sum = l.sum / c := by
  induction l with
  | nil => simp
  | cons a t ih => simp [ih, add_div]

theorem sumIhc_rescale {g : List IhcResult} (hne : sumIhc g ≠ 0) :
    sumIhc (g.map (fun r => { r with ihc := r.ihc / sumIhc g })) = 1 := by
  have h1 : sumIhc (g.map (fun r => { r with ihc := r.ihc / sumIhc g }))
      = ((g.map (fun r : IhcResult => r.ihc)).map
          (fun x => x / sumIhc g)).sum := by
    unfold sumIhc
    rw [List.map_map, List.map_map]
    rfl
  rw [h1, list_sum_map_div]
  exact div_self hne

theorem normalizeGroup_ok {g : List IhcResult} (hne : sumIhc g ≠ 0) :
    normalizeGroup g = Except.ok (rescaleGroup g) := by
  unfold normalizeGroup rescaleGroup
  by_cases h : eps < |sumIhc g - 1|
  · rw [if_pos h, if_pos h, if_neg hne]
  · rw [if_neg h, if_neg h]

theorem normalizeGroups_ok {gs : List (List IhcResult)}
    (h : ∀ g ∈ gs, sumIhc g ≠ 0) :
    normalizeGroups gs = Except.ok (gs.flatMap rescaleGroup) := by
  induction gs with
  | nil => rfl
  | cons g gs ih =>
      have hg := h g (List.mem_cons_self _ _)
      have hgs := ih (fun x hx => h x (List.mem_cons_of_mem _ hx))
      simp [normalizeGroups, normalizeGroup_ok hg, hgs]

/-- C5: whenever every conversion group has a non-zero weight sum,
`validate_ihc_results` succeeds and returns each group rescaled by the
reciprocal of its sum when the sum is outside the 1e-4 tolerance (the
rescaled sum is then exactly 1) and unchanged when within tolerance; in
particular weights `{S1: 0.3, S2: 0.3}` for one conversion become
`{S1: 0.5, S2: 0.5}`. -/
theorem c5_normalization (results : List IhcResult)
    (h : ∀ g ∈ groupByConv results, sumIhc g ≠ 0) :
    validate_ihc_results results
        = Except.ok ((groupByConv results).flatMap rescaleGroup)
    ∧ (∀ g ∈ groupByConv results,
        (eps < |sumIhc g - 1| → sumIhc (rescaleGroup g) = 1)
        ∧ (¬ eps < |sumIhc g - 1| → rescaleGroup g = g))
    ∧ validate_ihc_results
        [{ conversion_id := "C2", session_id := "S1", ihc := 3/10 },
         { conversion_id := "C2", session_id := "S2", ihc := 3/10 }]
      = Except.ok
        [{ conversion_id := "C2", session_id := "S1", ihc := 1/2 },
         { conversion_id := "C2", session_id := "S2", ihc := 1/2 }] := by
  refine ⟨?_, ?_, ?_⟩
  · unfold validate_ihc_results
    by_cases hres : results.isEmpty
    · rw [if_pos hres]
      have hrn : results = [] := List.isEmpty_iff.mp hres
      subst hrn
      rfl
    · rw [if_neg hres]
      exact normalizeGroups_ok h
  · intro g hg
    constructor
    · intro hgt
      unfold rescaleGroup
      rw [if_pos hgt]
      exact sumIhc_rescale (h g hg)
    · intro hle
      unfold rescaleGroup
      rw [if_neg hle]
  · norm_num [validate_ihc_results, groupByConv, pdUnique, pdUniqueAux,
      normalizeGroups, normalizeGroup, sumIhc, eps, abs]

theorem c5_witness :
    (∀ g ∈ groupByConv
        [{ conversion_id := "C2", session_id := "S1", ihc := (3:ℚ)/10 },
         { conversion_id := "C2", session_id := "S2", ihc := (3:ℚ)/10 }],
      sumIhc g ≠ 0)
    ∧ validate_ihc_results
        [{ conversion_id := "C2", session_id := "S1", ihc := 3/10 },
         { conversion_id := "C2", session_id := "S2", ihc := 3/10 }]
      = Except.ok
        [{ conversion_id := "C2", session_id := "S1", ihc := 1/2 },
         { conversion_id := "C2", session_id := "S2", ihc := 1/2 }] := by
  have hz : ∀ g ∈ groupByConv
      [{ conversion_id := "C2", session_id := "S1", ihc := (3:ℚ)/10 },
       { conversion_id := "C2", session_id := "S2", ihc := (3:ℚ)/10 }],
      sumIhc g ≠ 0 := by
    norm_num [groupByConv, pdUnique, pdUniqueAux, sumIhc]
  exact ⟨hz, (c5_normalization _ hz).2.2⟩

/-- C2: the code does not guard the division by the per-conversion weight
sum: on a conversion whose weights sum to 0 the statement
`session['ihc'] = session['ihc'] / ihc_sum` raises `ZeroDivisionError`,
which escapes `validate_ihc_results` (and, through `process_journeys`,
aborts the whole run) instead of being treated as a recoverable
validation failure. -/
theorem c2_zero_sum_division :
    validate_ihc_results
        [{ conversion_id := "C1", session_id := "S1", ihc := 0 },
         { conversion_id := "C1", session_id := "S2", ihc := 0 }]
      = Except.error "ZeroDivisionError"
    ∧ runBatches (fun _ =>
        some [{ conversion_id := "C1", session_id := "S1", ihc := 0 },
              { conversion_id := "C1", session_id := "S2", ihc := 0 }])
        [BatchEvent.submitted exC4rows] ([], 0)
      = Except.error "ZeroDivisionError" := by
  have hv : validate_ihc_results
      [{ conversion_id := "C1", session_id := "S1", ihc := (0:ℚ) },
       { conversion_id := "C1", session_id := "S2", ihc := (0:ℚ) }]
      = Except.error "ZeroDivisionError" := by
    norm_num [validate_ihc_results, groupByConv, pdUnique, pdUniqueAux,
      normalizeGroups, normalizeGroup, sumIhc, eps, abs]
  exact ⟨hv, by simp [runBatches, hv]⟩

/-- C7: a batch whose submission hits a transport error (`none`), a non-200
status, or a malformed payload yields `None` from `send_journeys_to_api`
without raising, the database state is untouched for that batch, and the
run continues with the remaining batch events unchanged. -/
theorem c7_batch_failure_isolated
    (transport : List JourneyRow → Option ApiResponse)
    (b : List JourneyRow) (evs : List BatchEvent) (st : List WeightRow × Nat)
    (h : transport b = none
      ∨ ∃ resp, transport b = some resp
          ∧ (resp.status_code ≠ 200 ∨ resp.json = none)) :
    send_journeys_to_api (transport b) = none
    ∧ runBatches (fun batch => send_journeys_to_api (transport batch))
        (BatchEvent.submitted b :: evs) st
      = runBatches (fun batch => send_journeys_to_api (transport batch)) evs st := by
  have hnone : send_journeys_to_api (transport b) = none := by
    rcases h with h | ⟨resp, hresp, hcase⟩
    · rw [h]; rfl
    · rw [hresp]
      show (if resp.status_code ≠ 200 then (none : Option (List IhcResult))
        else match resp.json with
          | none => none
          | some payload => some (payload.value.getD [])) = none
      rcases hcase with hst | hjson
      · rw [if_pos hst]
      · by_cases hst : resp.status_code ≠ 200
        · rw [if_pos hst]
        · rw [if_neg hst, hjson]
  refine ⟨hnone, ?_⟩
  simp [runBatches, hnone]

theorem c7_witness :
    send_journeys_to_api
        ((fun _ : List JourneyRow => (none : Option ApiResponse)) []) = none
    ∧ runBatches
        (fun batch => send_journeys_to_api
          ((fun _ : List JourneyRow => (none : Option ApiResponse)) batch))
        (BatchEvent.submitted [] :: []) ([], 0)
      = runBatches
          (fun batch => send_journeys_to_api
            ((fun _ : List JourneyRow => (none : Option ApiResponse)) batch))
          [] ([], 0) :=
  c7_batch_failure_isolated (fun _ => none) [] [] ([], 0) (Or.inl rfl)

theorem getLast!getD_cons {α : Type} (l : List α) : ∀ (x d : α),
    ((x :: l).getLast?).getD d = (l.getLast?).getD x := by
  induction l with
  | nil => intro x d; rfl
  | cons y ys ih =>
      intro x d
      rw [List.getLast?_cons_cons, ih y d, ih y x]

/-- Completed runs leave as persisted table exactly the contents of the
last non-empty batch write (or the initial table when no batch wrote):
every non-empty write first deletes the whole table. -/
theorem runBatches_final_table
    (api : List JourneyRow → Option (List IhcResult)) :
    ∀ (evs : List BatchEvent) (t0 : List WeightRow) (n0 : Nat)
      (t : List WeightRow) (n : Nat),
      runBatches api evs (t0, n0) = Except.ok (t, n) →
      t = ((evs.filterMap (batchWrite api)).getLast?).getD t0 := by
  intro evs
  induction evs with
  | nil =>
      intro t0 n0 t n h
      simp only [runBatches, Except.ok.injEq, Prod.mk.injEq] at h
      simp [← h.1]
  | cons e evs ih =>
      intro t0 n0 t n h
      cases e with
      | skipped cid =>
          simp only [runBatches] at h
          simp only [List.filterMap_cons, batchWrite]
          exact ih _ _ _ _ h
      | submitted b =>
          cases hapi : api b with
          | none =>
              simp only [runBatches, hapi] at h
              simp only [List.filterMap_cons, batchWrite, hapi]
              exact ih _ _ _ _ h
          | some res =>
              cases res with
              | nil =>
                  simp only [runBatches, hapi] at h
                  simp only [List.filterMap_cons, batchWrite, hapi]
                  exact ih _ _ _ _ h
              | cons r rs =>
                  cases hval : validate_ihc_results (r :: rs) with
                  | error e =>
                      simp only [runBatches, hapi, hval] at h
                      exact absurd h (by simp)
                  | ok v =>
                      simp only [runBatches, hapi, hval] at h
                      by_cases hv : v.isEmpty
                      · simp only [write_ihc_to_db, if_pos hv] at h
                        simp only [List.filterMap_cons, batchWrite, hapi, hval,
                          if_pos hv]
                        have := ih _ _ _ _ h
                        simpa using this
                      · simp only [write_ihc_to_db, if_neg hv] at h
                        simp only [List.filterMap_cons, batchWrite, hapi, hval,
                          if_neg hv]
                        have := ih _ _ _ _ h
                        rw [this, getLast!getD_cons]

def exC1rows : List JourneyRow :=
  [{ conversion_id := "A", session_id := "s1", timestamp := 1,
     channel_label := "ch", holder_engagement := 0, closer_engagement := 0,
     conversion := 0, impression_interaction := 0 },
   { conversion_id := "B", session_id := "s2", timestamp := 2,
     channel_label := "ch", holder_engagement := 0, closer_engagement := 0,
     conversion := 0, impression_interaction := 0 }]

/-- A submission oracle that answers both batches of `exC1rows` with a
valid weight of 1 for the batch's conversion. -/
def exC1api (b : List JourneyRow) : Option (List IhcResult) :=
  match b with
  | [] => none
  | r :: _ =>
      if r.conversion_id = "A" then
        some [{ conversion_id := "A", session_id := "s1", ihc := 1 }]
      else some [{ conversion_id := "B", session_id := "s2", ihc := 1 }]

/-- C1 counterexample: with `max_journeys_per_request = 1` the two
conversions are submitted as two successive batches, both succeed, and the
run reports 2 records written; yet the final persisted table holds only the
second batch's row — the first successfully written batch's row was deleted
by the second batch's `DELETE FROM attribution_customer_journey`.  The
table is replaced on every batch write, not once per run. -/
theorem c1_counterexample :
    process_journeys_run exC1api 1 10 exC1rows []
      = Except.ok ([{ conv_id := "B", session_id := "s2", ihc := 1 }], 2)
    ∧ ({ conv_id := "A", session_id := "s1", ihc := 1 } : WeightRow)
        ∉ [({ conv_id := "B", session_id := "s2", ihc := 1 } : WeightRow)] := by
  have hev : process_journeys 1 10 exC1rows =
      [BatchEvent.submitted
        [{ conversion_id := "A", session_id := "s1", timestamp := 1,
           channel_label := "ch", holder_engagement := 0,
           closer_engagement := 0, conversion := 0,
           impression_interaction := 0 }],
       BatchEvent.submitted
        [{ conversion_id := "B", session_id := "s2", timestamp := 2,
           channel_label := "ch", holder_engagement := 0,
           closer_engagement := 0, conversion := 0,
           impression_interaction := 0 }]] := by decide
  have hva : validate_ihc_results
      [{ conversion_id := "A", session_id := "s1", ihc := (1:ℚ) }]
      = Except.ok [{ conversion_id := "A", session_id := "s1", ihc := (1:ℚ) }] := by
    norm_num [validate_ihc_results, groupByConv, pdUnique, pdUniqueAux,
      normalizeGroups, normalizeGroup, sumIhc, eps, abs]
  have hvb : validate_ihc_results
      [{ conversion_id := "B", session_id := "s2", ihc := (1:ℚ) }]
      = Except.ok [{ conversion_id := "B", session_id := "s2", ihc := (1:ℚ) }] := by
    norm_num [validate_ihc_results, groupByConv, pdUnique, pdUniqueAux,
      normalizeGroups, normalizeGroup, sumIhc, eps, abs]
  constructor
  · rw [process_journeys_run, if_neg (by decide), hev]
    simp [runBatches, exC1api, hva, hvb, write_ihc_to_db, toWeightRow]
  · simp

/-- C1 amended: a batch failure leaves earlier batches' rows in place (no
write happens), but each successful non-empty batch write replaces the
whole table with just that batch's rows; consequently a completed run's
final table is exactly the last non-empty batch write of the run (or the
initial table contents when no batch wrote) — not the union of all
successful batches. -/
theorem c1_amended_last_write_wins
    (api : List JourneyRow → Option (List IhcResult)) (maxJ maxS : Nat)
    (rows : List JourneyRow) (table0 : List WeightRow)
    (t : List WeightRow) (n : Nat)
    (h : process_journeys_run api maxJ maxS rows table0 = Except.ok (t, n)) :
    t = (((process_journeys maxJ maxS rows).filterMap
          (batchWrite api)).getLast?).getD table0
    ∧ (∀ v : List IhcResult, ∀ table : List WeightRow, v ≠ [] →
        write_ihc_to_db v table = (v.map toWeightRow, v.length))
    ∧ ∀ b : List JourneyRow, ∀ evs : List BatchEvent,
        ∀ st : List WeightRow × Nat, api b = none →
        runBatches api (BatchEvent.submitted b :: evs) st
          = runBatches api evs st := by
  refine ⟨?_, ?_, ?_⟩
  · unfold process_journeys_run at h
    by_cases hrows : rows.isEmpty
    · rw [if_pos hrows] at h
      have hr : rows = [] := List.isEmpty_iff.mp hrows
      subst hr
      simp only [Except.ok.injEq, Prod.mk.injEq] at h
      rw [← h.1]
      rfl
    · rw [if_neg hrows] at h
      exact runBatches_final_table api _ _ _ _ _ h
  · intro v table hv
    unfold write_ihc_to_db
    rw [if_neg (by simpa [List.isEmpty_iff] using hv)]
  · intro b evs st hb
    simp [runBatches, hb]

theorem c1_witness :
    (([] : List WeightRow)
      = (((process_journeys 1 10 ([] : List JourneyRow)).filterMap
          (batchWrite (fun _ => none))).getLast?).getD [])
    ∧ (∀ v : List IhcResult, ∀ table : List WeightRow, v ≠ [] →
        write_ihc_to_db v table = (v.map toWeightRow, v.length))
    ∧ ∀ b : List JourneyRow, ∀ evs : List BatchEvent,
        ∀ st : List WeightRow × Nat,
        (fun _ : List JourneyRow => (none : Option (List IhcResult))) b = none →
        runBatches (fun _ => none) (BatchEvent.submitted b :: evs) st
          = runBatches (fun _ => none) evs st :=
  c1_amended_last_write_wins (fun _ => none) 1 10 [] [] [] 0 rfl

def exC8row : JourneyRow :=
  { conversion_id := "C1", session_id := "S1", timestamp := 1,
    channel_label := "ch", holder_engagement := 0, closer_engagement := 0,
    conversion := 0, impression_interaction := 0 }

/-- C8 counterexample: `run_pipeline` returns `None` to its caller on every
path, so a gate-blocked run (empty journey set) hands its caller exactly
the same value as a fully successful run — there is no `success=false`
reported to the caller, even though the gates themselves do block. -/
theorem c8_counterexample :
    (run_pipeline [] 0).retval = (run_pipeline [exC8row] 5).retval
    ∧ (run_pipeline [] 0).stages = ["BUILD_JOURNEYS"]
    ∧ (run_pipeline [exC8row] 5).stages
        = ["BUILD_JOURNEYS", "SUBMIT_AND_WRITE", "REPORT"] := by
  decide

/-- C8 amended: the submission stage is attempted exactly when the journey
set is non-empty and the report stage exactly when, additionally, the
written record count is non-zero; a blocked gate halts the run with no
further stages and reports the failure as a console message only —
`run_pipeline` returns `None` (here `Unit`) to its caller in every case,
with no success flag. -/
theorem c8_stage_gating (journeys : List JourneyRow) (records : Nat) :
    ("SUBMIT_AND_WRITE" ∈ (run_pipeline journeys records).stages
        ↔ journeys ≠ [])
    ∧ ("REPORT" ∈ (run_pipeline journeys records).stages
        ↔ (journeys ≠ [] ∧ records ≠ 0))
    ∧ (journeys = [] →
        (run_pipeline journeys records).stages = ["BUILD_JOURNEYS"]
        ∧ msgNoJourneys ∈ (run_pipeline journeys records).log)
    ∧ (journeys ≠ [] → records = 0 →
        (run_pipeline journeys records).stages
            = ["BUILD_JOURNEYS", "SUBMIT_AND_WRITE"]
        ∧ msgNoRecords ∈ (run_pipeline journeys records).log)
    ∧ (run_pipeline journeys records).retval = () := by
  unfold run_pipeline
  by_cases hj : journeys.isEmpty
  · have hj' : journeys = [] := List.isEmpty_iff.mp hj
    subst hj'
    simp
  · have hj' : journeys ≠ [] := by simpa [List.isEmpty_iff] using hj
    rw [if_neg hj]
    by_cases hr : records = 0
    · rw [if_pos hr]
      simp [hj', hr]
    · rw [if_neg hr]
      simp [hj', hr]

theorem c8_witness :
    (run_pipeline [] 0).stages = ["BUILD_JOURNEYS"]
    ∧ msgNoJourneys ∈ (run_pipeline [] 0).log :=
  (c8_stage_gating [] 0).2.2.1 rfl

/-!
The intermediate CSV artifact.  `CustomerJourneyBuilder.save_to_csv`
(`src/pipeline/cj_builder.py` lines 122-133) writes `journeys_df.to_csv`
(header line plus one comma-joined line per row, strings written verbatim
when they need no quoting, integers in decimal); the `send-to-api` step of
`src/run_pipeline.py` (lines 95-99) reads it back with `pd.read_csv`, whose
type inference turns a column back into integers exactly when every one of
its cells is an integer literal, and otherwise leaves the cells as strings.
The model below renders cells to character lists, joins/splits on commas,
and applies the column-wise integer inference.
-/

/-- Decimal digit to character. -/
def digChar (d : Nat) : Char := Char.ofNat (48 + d)

/-- Character to decimal digit value. -/
def charDig (c : Char) : Nat := c.toNat - 48

/-- ASCII decimal digit test. -/
def isDigitCh (c : Char) : Bool :=
  decide (48 ≤ c.toNat) && decide (c.toNat ≤ 57)

/-- Value of a little-endian digit list. -/
def valLE : List Nat → Nat
  | [] => 0
  | d :: ds => d + 10 * valLE ds

/-- Little-endian decimal digits of `n` (fuel-indexed; `n` fuel always
suffices). -/
def natDigitsRev : Nat → Nat → List Nat
  | 0, _ => []
  | fuel + 1, n => if n = 0 then [] else n % 10 :: natDigitsRev fuel (n / 10)

/-- Decimal rendering of a natural number, as `str()` renders it. -/
def natCell (n : Nat) : List Char :=
  if n = 0 then ['0'] else (natDigitsRev n n).reverse.map digChar

/-- Decimal rendering of an integer, as `str()` renders it. -/
def intCell (n : Int) : List Char :=
  if n < 0 then '-' :: natCell n.natAbs else natCell n.toNat

/-- Value of a big-endian digit character list. -/
def digitsVal (cs : List Char) : Nat :=
  cs.foldl (fun acc c => 10 * acc + charDig c) 0

/-- Whether a cell is an integer literal (optional leading minus, then at
least one digit) — the cells `pd.read_csv` converts to integers. -/
def intCellShape (cs : List Char) : Bool :=
  if cs.head? = some '-' then !cs.tail.isEmpty && cs.tail.all isDigitCh
  else !cs.isEmpty && cs.all isDigitCh

/-- Integer value of an integer-literal cell. -/
def intCellVal (cs : List Char) : Int :=
  if cs.head? = some '-' then -(digitsVal cs.tail : Int)
  else (digitsVal cs : Int)

theorem valLE_natDigitsRev :
    ∀ (fuel n : Nat), n ≤ fuel → valLE (natDigitsRev fuel n) = n := by
  intro fuel
  induction fuel with
  | zero =>
      intro n hn
      have : n = 0 := Nat.le_zero.mp hn
      subst this
      rfl
  | succ fuel ih =>
      intro n hn
      by_cases h0 : n = 0
      · subst h0; rfl
      · have hdiv : n / 10 ≤ fuel := by
          have := Nat.div_lt_self (Nat.pos_of_ne_zero h0) (by omega : 1 < 10)
          omega
        simp only [natDigitsRev, if_neg h0, valLE, ih _ hdiv]
        omega

theorem natDigitsRev_lt :
    ∀ (fuel n d : Nat), d ∈ natDigitsRev fuel n → d < 10 := by
  intro fuel
  induction fuel with
  | zero => intro n d hd; simp [natDigitsRev] at hd
  | succ fuel ih =>
      intro n d hd
      by_cases h0 : n = 0
      · subst h0; simp [natDigitsRev] at hd
      · simp only [natDigitsRev, if_neg h0, List.mem_cons] at hd
        rcases hd with rfl | hd
        · exact Nat.mod_lt n (by omega)
        · exact ih _ _ hd

theorem charDig_digChar {d : Nat} (hd : d < 10) : charDig (digChar d) = d := by
  interval_cases d <;> decide

theorem isDigitCh_digChar {d : Nat} (hd : d < 10) :
    isDigitCh (digChar d) = true := by
  interval_cases d <;> decide

theorem digitsVal_rev_digits :
    ∀ ds : List Nat, (∀ d ∈ ds, d < 10) →
      digitsVal (ds.reverse.map digChar) = valLE ds := by
  intro ds
  induction ds with
  | nil => intro _; rfl
  | cons d ds ih =>
      intro h
      rw [List.reverse_cons, List.map_append]
      unfold digitsVal
      rw [List.foldl_append]
      have hds : digitsVal (ds.reverse.map digChar) = valLE ds :=
        ih (fun x hx => h x (List.mem_cons_of_mem _ hx))
      unfold digitsVal at hds
      rw [hds]
      simp only [List.map_cons, List.map_nil, List.foldl_cons, List.foldl_nil]
      rw [charDig_digChar (h d (List.mem_cons_self _ _))]
      show 10 * valLE ds + d = valLE (d :: ds)
      simp only [valLE]
      ring

theorem digitsVal_natCell (n : Nat) : digitsVal (natCell n) = n := by
  by_cases h0 : n = 0
  · subst h0; decide
  · unfold natCell
    rw [if_neg h0]
    rw [digitsVal_rev_digits _ (fun d hd => natDigitsRev_lt n n d hd)]
    exact valLE_natDigitsRev n n le_rfl

theorem natCell_all_digits (n : Nat) : (natCell n).all isDigitCh = true := by
  by_cases h0 : n = 0
  · subst h0; decide
  · unfold natCell
    rw [if_neg h0]
    rw [List.all_eq_true]
    intro c hc
    obtain ⟨d, hd, rfl⟩ := List.mem_map.mp hc
    exact isDigitCh_digChar (natDigitsRev_lt n n d (List.mem_reverse.mp hd))

theorem natDigitsRev_ne_nil {fuel n : Nat} (hf : 0 < fuel) (hn : n ≠ 0) :
    natDigitsRev fuel n ≠ [] := by
  obtain ⟨f, rfl⟩ : ∃ f, fuel = f + 1 := ⟨fuel - 1, by omega⟩
  simp [natDigitsRev, if_neg hn]

theorem natCell_ne_nil (n : Nat) : natCell n ≠ [] := by
  by_cases h0 : n = 0
  · subst h0; decide
  · unfold natCell
    rw [if_neg h0]
    intro h
    simp only [List.map_eq_nil_iff, List.reverse_eq_nil_iff] at h
    exact natDigitsRev_ne_nil (Nat.pos_of_ne_zero h0) h0 h

theorem natCell_head_digit (n : Nat) :
    ∀ c ∈ natCell n, isDigitCh c = true := by
  intro c hc
  exact List.all_eq_true.mp (natCell_all_digits n) c hc

theorem natCell_head_ne_minus (n : Nat) : (natCell n).head? ≠ some '-' := by
  intro h
  cases hc : natCell n with
  | nil => exact natCell_ne_nil n hc
  | cons a t =>
      rw [hc] at h
      simp only [List.head?_cons, Option.some.injEq] at h
      have := natCell_head_digit n a (by rw [hc]; exact List.mem_cons_self _ _)
      rw [h] at this
      exact absurd this (by decide)

theorem intCellShape_intCell (n : Int) : intCellShape (intCell n) = true := by
  unfold intCell
  by_cases hn : n < 0
  · rw [if_pos hn]
    have hcond : ('-' :: natCell n.natAbs).head? = some '-' := rfl
    unfold intCellShape
    rw [if_pos hcond]
    simp only [List.tail_cons]
    rw [Bool.and_eq_true]
    refine ⟨?_, natCell_all_digits n.natAbs⟩
    simp [List.isEmpty_iff, natCell_ne_nil n.natAbs]
  · rw [if_neg hn]
    unfold intCellShape
    rw [if_neg (natCell_head_ne_minus n.toNat)]
    rw [Bool.and_eq_true]
    refine ⟨?_, natCell_all_digits n.toNat⟩
    simp [List.isEmpty_iff, natCell_ne_nil n.toNat]

theorem intCellVal_intCell (n : Int) : intCellVal (intCell n) = n := by
  unfold intCell
  by_cases hn : n < 0
  · rw [if_pos hn]
    have hcond : ('-' :: natCell n.natAbs).head? = some '-' := rfl
    unfold intCellVal
    rw [if_pos hcond]
    simp only [List.tail_cons]
    rw [digitsVal_natCell]
    omega
  · rw [if_neg hn]
    unfold intCellVal
    rw [if_neg (natCell_head_ne_minus n.toNat), digitsVal_natCell]
    omega

theorem comma_not_mem_natCell (n : Nat) : ',' ∉ natCell n := by
  intro h
  have := natCell_head_digit n ',' h
  exact absurd this (by decide)

theorem comma_not_mem_intCell (n : Int) : ',' ∉ intCell n := by
  unfold intCell
  by_cases hn : n < 0
  · rw [if_pos hn]
    intro h
    rcases List.mem_cons.mp h with h | h
    · exact absurd h (by decide)
    · exact comma_not_mem_natCell _ h
  · rw [if_neg hn]
    exact comma_not_mem_natCell _

/-- Characters that can occur in a cell `pd.read_csv` converts to a
number: digits, the sign characters, the decimal point, the exponent
letters, the whitespace its numeric converters skip around a number
(`str_to_int64` and the float tokenizer both strip leading/trailing
whitespace), and the letters of the `inf`/`Infinity` float literals, which
the tokenizer accepts in any letter case.  A cell containing any character
outside this set is convertible neither to `int64` nor to `float64`. -/
def numLikeCh (c : Char) : Bool :=
  isDigitCh c
    || ['-', '.', 'e', 'E', '+', 'i', 'I', 'n', 'N', 'f', 'F', 't', 'T',
        'y', 'Y'].contains c
    || decide (c.toNat = 32) || decide (c.toNat = 9)
    || decide (c.toNat = 11) || decide (c.toNat = 12)

/-- Cell contents `pd.read_csv` reads back as something other than the
verbatim string by exact string match: the default NA markers (matched
verbatim against the `na_values` set) and the standard boolean literal
spellings. -/
def naLikeCells : List String :=
  ["", "True", "TRUE", "true", "False", "FALSE", "false",
   "NaN", "nan", "NAN", "-NaN", "-nan", "NULL", "Null", "null", "None",
   "N/A", "n/a", "NA", "<NA>", "#N/A", "#NA", "#N/A N/A",
   "1.#IND", "1.#QNAN", "-1.#IND", "-1.#QNAN"]

/-- ASCII lower-casing (the case folding `to_boolean`'s case-insensitive
comparison performs). -/
def lowerCh (c : Char) : Char :=
  if 65 ≤ c.toNat && c.toNat ≤ 90 then Char.ofNat (c.toNat + 32) else c

/-- A string cell that survives the CSV round trip verbatim: it contains at
least one character that cannot occur in any numeric form (so neither the
whitespace-stripping integer conversion nor the float conversion with its
`inf`/`Infinity` literals can apply), none of the characters that trigger
quoting in `to_csv` or line/field splitting, it is not a default NA
marker, and it is not a boolean literal under any letter case
(`to_boolean` compares case-insensitively). -/
def plainCell (s : String) : Bool :=
  s.data.any (fun c => !numLikeCh c)
    && s.data.all (fun c => !(decide (c = ',') || decide (c = '"')
        || decide (c = '\n') || decide (c = '\r')))
    && !(naLikeCells.contains s)
    && !(["true", "false"].contains (String.mk (s.data.map lowerCh)))

theorem not_digit_not_minus_of_not_numLike {c : Char}
    (h : numLikeCh c = false) : isDigitCh c = false ∧ c ≠ '-' := by
  unfold numLikeCh at h
  simp only [Bool.or_eq_false_iff] at h
  refine ⟨h.1.1.1.1.1, fun hc => ?_⟩
  have hcontains := h.1.1.1.1.2
  subst hc
  exact absurd hcontains (by decide)

theorem intCellShape_eq_false_of_plain {s : String}
    (h : plainCell s = true) : intCellShape s.data = false := by
  unfold plainCell at h
  simp only [Bool.and_eq_true] at h
  obtain ⟨c0, hc0mem, hc0⟩ := List.any_eq_true.mp h.1.1.1
  rw [Bool.not_eq_true'] at hc0
  obtain ⟨hc0d, hc0m⟩ := not_digit_not_minus_of_not_numLike hc0
  unfold intCellShape
  by_cases hh : s.data.head? = some '-'
  · rw [if_pos hh]
    cases hsd : s.data with
    | nil => rw [hsd] at hh; simp at hh
    | cons a t =>
        rw [hsd] at hh
        simp only [List.head?_cons, Option.some.injEq] at hh
        subst hh
        rw [hsd] at hc0mem
        rcases List.mem_cons.mp hc0mem with rfl | hc0t
        · exact absurd rfl hc0m
        · simp only [List.tail_cons, Bool.and_eq_false_iff]
          right
          rw [List.all_eq_false]
          exact ⟨c0, hc0t, by simp [hc0d]⟩
  · rw [if_neg hh]
    rw [Bool.and_eq_false_iff]
    right
    rw [List.all_eq_false]
    exact ⟨c0, hc0mem, by simp [hc0d]⟩

theorem comma_not_mem_of_plain {s : String} (h : plainCell s = true) :
    ',' ∉ s.data := by
  unfold plainCell at h
  simp only [Bool.and_eq_true] at h
  intro hmem
  have := List.all_eq_true.mp h.1.1.2 ',' hmem
  simp at this

/-- Comma-join of cells into one CSV line (`to_csv` without quoting, which
is what `QUOTE_MINIMAL` produces for cells free of commas, quotes and
newlines). -/
def joinCells : List (List Char) → List Char
  | [] => []
  | [c] => c
  | c :: cs => c ++ ',' :: joinCells cs

/-- Comma-split of one CSV line into cells (the `read_csv` field split for
unquoted lines). -/
def splitCells : List Char → List (List Char)
  | [] => [[]]
  | c :: rest =>
      if c = ',' then [] :: splitCells rest
      else
        match splitCells rest with
        | [] => [[c]]
        | cur :: others => (c :: cur) :: others

theorem splitCells_no_comma {cs : List Char} (h : ',' ∉ cs) :
    splitCells cs = [cs] := by
  induction cs with
  | nil => rfl
  | cons c rest ih =>
      have hc : ¬ c = ',' := fun hc => h (hc ▸ List.mem_cons_self _ _)
      have hrest : ',' ∉ rest := fun hr => h (List.mem_cons_of_mem _ hr)
      unfold splitCells
      rw [if_neg hc, ih hrest]

theorem splitCells_append {c : List Char} (h : ',' ∉ c) (rest : List Char) :
    splitCells (c ++ ',' :: rest) = c :: splitCells rest := by
  induction c with
  | nil =>
      rw [List.nil_append]
      simp [splitCells]
  | cons ch c' ih =>
      have hch : ¬ ch = ',' := fun hc => h (hc ▸ List.mem_cons_self _ _)
      have hc' : ',' ∉ c' := fun hr => h (List.mem_cons_of_mem _ hr)
      rw [List.cons_append]
      rw [splitCells]
      rw [if_neg hch, ih hc']

theorem splitCells_joinCells :
    ∀ cells : List (List Char), cells ≠ [] → (∀ c ∈ cells, ',' ∉ c) →
      splitCells (joinCells cells) = cells := by
  intro cells
  induction cells with
  | nil => intro h _; exact absurd rfl h
  | cons c cs ih =>
      intro _ hcomma
      cases cs with
      | nil =>
          show splitCells (joinCells [c]) = [c]
          exact splitCells_no_comma (hcomma c (List.mem_cons_self _ _))
      | cons c2 cs' =>
          show splitCells (c ++ ',' :: joinCells (c2 :: cs')) = c :: c2 :: cs'
          rw [splitCells_append (hcomma c (List.mem_cons_self _ _))]
          rw [ih (by simp) (fun x hx => hcomma x (List.mem_cons_of_mem _ hx))]

/-- A cell value after `read_csv` type inference: an integer or a verbatim
string. -/
inductive CsvVal where
  | int (n : Int)
  | str (s : String)
deriving DecidableEq

/-- The header cells written by `to_csv`
(`src/pipeline/cj_builder.py` line 130, column order fixed at lines
103-106). -/
def headerCells : List (List Char) :=
  ["conversion_id".data, "session_id".data, "timestamp".data,
   "channel_label".data, "holder_engagement".data, "closer_engagement".data,
   "conversion".data, "impression_interaction".data]

/-- The cells of one data line written by `to_csv` for a journey row. -/
def rowCells (r : JourneyRow) : List (List Char) :=
  [r.conversion_id.data, r.session_id.data, intCell r.timestamp,
   r.channel_label.data, intCell r.holder_engagement,
   intCell r.closer_engagement, intCell r.conversion,
   intCell r.impression_interaction]

/-- `CustomerJourneyBuilder.save_to_csv` (`src/pipeline/cj_builder.py`
lines 122-133): the file as a list of lines — header first, then one
comma-joined line per row (`index=False`). -/
def writeCsvLines (rows : List JourneyRow) : List (List Char) :=
  joinCells headerCells :: rows.map (fun r => joinCells (rowCells r))

/-- The eight split fields of one data line before type inference. -/
structure RawRow where
  f1 : List Char
  f2 : List Char
  f3 : List Char
  f4 : List Char
  f5 : List Char
  f6 : List Char
  f7 : List Char
  f8 : List Char
deriving DecidableEq

/-- Field split of one data line; a line without exactly eight fields fails
the parse. -/
def parseRawRow (line : List Char) : Option RawRow :=
  match splitCells line with
  | [a, b, c, d, e, f, g, h] => some ⟨a, b, c, d, e, f, g, h⟩
  | _ => none

/-- Decode one cell under its column's inference decision. -/
def decodeWith (b : Bool) (cs : List Char) : CsvVal :=
  if b then CsvVal.int (intCellVal cs) else CsvVal.str (String.mk cs)

/-- Column-wise type inference of `pd.read_csv`, restricted to its integer
conversion: a column is converted to integers exactly when every one of its
cells is an integer literal.  The float, NA and boolean conversions that
`read_csv` would additionally attempt are not modelled; instead the
round-trip theorem's `plainCell` hypothesis confines string cells to ones
none of those conversions can touch (each contains a character no numeric
form can contain and is no NA or boolean marker under any letter case),
and the integer columns are written as exact integer literals, on which
the integer conversion is `read_csv`'s complete behavior.  The
counterexample likewise exercises only the integer conversion. -/
def decodeRows (raws : List RawRow) : List (List CsvVal) :=
  let b1 := raws.all (fun r => intCellShape r.f1)
  let b2 := raws.all (fun r => intCellShape r.f2)
  let b3 := raws.all (fun r => intCellShape r.f3)
  let b4 := raws.all (fun r => intCellShape r.f4)
  let b5 := raws.all (fun r => intCellShape r.f5)
  let b6 := raws.all (fun r => intCellShape r.f6)
  let b7 := raws.all (fun r => intCellShape r.f7)
  let b8 := raws.all (fun r => intCellShape r.f8)
  raws.map (fun r =>
    [decodeWith b1 r.f1, decodeWith b2 r.f2, decodeWith b3 r.f3,
     decodeWith b4 r.f4, decodeWith b5 r.f5, decodeWith b6 r.f6,
     decodeWith b7 r.f7, decodeWith b8 r.f8])

/-- `pd.read_csv` on the artifact (`src/run_pipeline.py` line 98): consume
the header line, split every data line into fields, and apply column-wise
integer inference. -/
def readCsvLines (file : List (List Char)) : Option (List (List CsvVal)) :=
  match file with
  | [] => none
  | h :: body =>
      if h = joinCells headerCells then
        (body.mapM parseRawRow).map decodeRows
      else none

/-- The in-memory journey row as cell values: the reading `read_csv` would
have to produce for the round trip to be the identity. -/
def embedRow (r : JourneyRow) : List CsvVal :=
  [CsvVal.str r.conversion_id, CsvVal.str r.session_id,
   CsvVal.int r.timestamp, CsvVal.str r.channel_label,
   CsvVal.int r.holder_engagement, CsvVal.int r.closer_engagement,
   CsvVal.int r.conversion, CsvVal.int r.impression_interaction]

/-- The split fields the writer produces for a journey row. -/
def rawOf (r : JourneyRow) : RawRow :=
  { f1 := r.conversion_id.data, f2 := r.session_id.data,
    f3 := intCell r.timestamp, f4 := r.channel_label.data,
    f5 := intCell r.holder_engagement, f6 := intCell r.closer_engagement,
    f7 := intCell r.conversion, f8 := intCell r.impression_interaction }

/-- Predicate packaging the string-field hypotheses of the amended C9. -/
def plainRow (r : JourneyRow) : Prop :=
  plainCell r.conversion_id = true ∧ plainCell r.session_id = true
    ∧ plainCell r.channel_label = true

instance (r : JourneyRow) : Decidable (plainRow r) := by
  unfold plainRow
  infer_instance

theorem parseRawRow_rowCells {r : JourneyRow} (h : plainRow r) :
    parseRawRow (joinCells (rowCells r)) = some (rawOf r) := by
  obtain ⟨h1, h2, h4⟩ := h
  have hsplit : splitCells (joinCells (rowCells r)) = rowCells r := by
    apply splitCells_joinCells _ (by simp [rowCells])
    intro c hc
    simp only [rowCells, List.mem_cons] at hc
    rcases hc with rfl | rfl | rfl | rfl | rfl | rfl | rfl | rfl | hfalse
    · exact comma_not_mem_of_plain h1
    · exact comma_not_mem_of_plain h2
    · exact comma_not_mem_intCell _
    · exact comma_not_mem_of_plain h4
    · exact comma_not_mem_intCell _
    · exact comma_not_mem_intCell _
    · exact comma_not_mem_intCell _
    · exact comma_not_mem_intCell _
    · simp at hfalse
  unfold parseRawRow
  rw [hsplit]
  rfl

theorem mapM_parseRawRow {rows : List JourneyRow}
    (h : ∀ r ∈ rows, plainRow r) :
    (rows.map (fun r => joinCells (rowCells r))).mapM parseRawRow
      = some (rows.map rawOf) := by
  induction rows with
  | nil => rfl
  | cons r rs ih =>
      rw [List.map_cons, List.mapM_cons,
        parseRawRow_rowCells (h r (List.mem_cons_self _ _)),
        ih (fun x hx => h x (List.mem_cons_of_mem _ hx))]
      rfl

theorem decodeWith_false_str (s : String) :
    decodeWith false s.data = CsvVal.str s := by
  unfold decodeWith
  rw [if_neg (by simp)]

theorem decodeWith_true_int (n : Int) :
    decodeWith true (intCell n) = CsvVal.int n := by
  unfold decodeWith
  rw [if_pos rfl, intCellVal_intCell]

theorem decodeRows_map_rawOf (r0 : JourneyRow) (rs : List JourneyRow)
    (h : ∀ r ∈ r0 :: rs, plainRow r) :
    decodeRows ((r0 :: rs).map rawOf) = (r0 :: rs).map embedRow := by
  have hb1 : ((r0 :: rs).map rawOf).all (fun r => intCellShape r.f1) = false := by
    rw [List.all_eq_false]
    refine ⟨rawOf r0, by simp, ?_⟩
    have := intCellShape_eq_false_of_plain (h r0 (List.mem_cons_self _ _)).1
    simp [rawOf, this]
  have hb2 : ((r0 :: rs).map rawOf).all (fun r => intCellShape r.f2) = false := by
    rw [List.all_eq_false]
    refine ⟨rawOf r0, by simp, ?_⟩
    have := intCellShape_eq_false_of_plain (h r0 (List.mem_cons_self _ _)).2.1
    simp [rawOf, this]
  have hb4 : ((r0 :: rs).map rawOf).all (fun r => intCellShape r.f4) = false := by
    rw [List.all_eq_false]
    refine ⟨rawOf r0, by simp, ?_⟩
    have := intCellShape_eq_false_of_plain (h r0 (List.mem_cons_self _ _)).2.2
    simp [rawOf, this]
  have hb3 : ((r0 :: rs).map rawOf).all (fun r => intCellShape r.f3) = true := by
    rw [List.all_eq_true]
    intro x hx
    obtain ⟨r, hr, rfl⟩ := List.mem_map.mp hx
    exact intCellShape_intCell _
  have hb5 : ((r0 :: rs).map rawOf).all (fun r => intCellShape r.f5) = true := by
    rw [List.all_eq_true]
    intro x hx
    obtain ⟨r, hr, rfl⟩ := List.mem_map.mp hx
    exact intCellShape_intCell _
  have hb6 : ((r0 :: rs).map rawOf).all (fun r => intCellShape r.f6) = true := by
    rw [List.all_eq_true]
    intro x hx
    obtain ⟨r, hr, rfl⟩ := List.mem_map.mp hx
    exact intCellShape_intCell _
  have hb7 : ((r0 :: rs).map rawOf).all (fun r => intCellShape r.f7) = true := by
    rw [List.all_eq_true]
    intro x hx
    obtain ⟨r, hr, rfl⟩ := List.mem_map.mp hx
    exact intCellShape_intCell _
  have hb8 : ((r0 :: rs).map rawOf).all (fun r => intCellShape r.f8) = true := by
    rw [List.all_eq_true]
    intro x hx
    obtain ⟨r, hr, rfl⟩ := List.mem_map.mp hx
    exact intCellShape_intCell _
  unfold decodeRows
  rw [hb1, hb2, hb3, hb4, hb5, hb6, hb7, hb8]
  rw [List.map_map]
  apply List.map_congr_left
  intro r hr
  simp only [Function.comp, rawOf, embedRow,
    decodeWith_false_str, decodeWith_true_int]

/-- C9 amended: the CSV round trip of a `build_journeys` journey set is the
identity provided every string field (conversion id, session id, channel
label) is "plain": it contains a character that cannot occur in any
numeric form (ruling out the whitespace-stripping integer conversion and
the float conversion with its `inf`/`Infinity` literals), contains no
comma/quote/newline, and is neither an NA marker nor a boolean literal
under any letter case.  (Without that proviso `read_csv` type inference
rewrites the values — see the counterexample.) -/
theorem c9_roundtrip (rows : List JourneyRow)
    (h : ∀ r ∈ rows, plainRow r) :
    readCsvLines (writeCsvLines rows) = some (rows.map embedRow) := by
  show (if joinCells headerCells = joinCells headerCells then
      (((rows.map (fun r => joinCells (rowCells r))).mapM parseRawRow).map
        decodeRows)
    else none) = some (rows.map embedRow)
  rw [if_pos rfl, mapM_parseRawRow h]
  cases rows with
  | nil => rfl
  | cons r0 rs =>
      rw [Option.map_some']
      rw [decodeRows_map_rawOf r0 rs h]

def exC9convs : List Conversion :=
  [{ conv_id := "123", user_id := "U1", timestamp := 5 }]

def exC9sessions : List Session :=
  [{ session_id := "S1", user_id := "U1", timestamp := 3,
     channel_name := "paid", holder_engagement := 1, closer_engagement := 0,
     impression_interaction := 1 }]

/-- C9 counterexample: a journey set produced by `build_journeys` whose
conversion id is the digit string `"123"` does not survive the CSV round
trip: `read_csv` infers the `conversion_id` column as integers, so the
value comes back as the integer `123` instead of the string `"123"` — the
rows read back are not the rows written. -/
theorem c9_counterexample :
    readCsvLines (writeCsvLines (build_journeys exC9convs exC9sessions))
      ≠ some ((build_journeys exC9convs exC9sessions).map embedRow) := by
  decide

def exC9okConvs : List Conversion :=
  [{ conv_id := "conv_a", user_id := "U1", timestamp := 5 }]

def exC9okSessions : List Session :=
  [{ session_id := "sess_a", user_id := "U1", timestamp := 3,
     channel_name := "paid_search", holder_engagement := 1,
     closer_engagement := 0, impression_interaction := 1 }]

theorem c9_witness :
    readCsvLines (writeCsvLines (build_journeys exC9okConvs exC9okSessions))
      = some ((build_journeys exC9okConvs exC9okSessions).map embedRow) :=
  c9_roundtrip _ (by decide)
